import Mathlib

/-!
Verification of the hierag hybrid retrieval engine against its specification.

The hybrid retriever itself lives in the backend module `05_llmapi.py`, which is
not part of the shared source tree here; only its documentation
(`HYBRID_RETRIEVAL.md`) and its frontend consumer (`ChatApp`) are. The fuser,
BM25 idf and retrieval pipeline below are therefore modelled from the spec
(sections 4.2, 4.5, 5 and 6). The frontend definitions (`domainFromUrl`,
debug-table rendering, field reads) are translated directly from the ChatApp
component source. Scores are embedded as exact rationals (`ℚ`).
-/

/-- Modelled from the spec (§3, §4.5 step 1): a transient per-query candidate,
the union element of the two top-K lists, carrying whichever raw scores are
present and the provenance flags. The `05_llmapi.py` implementation is missing
from the source tree. -/
structure Candidate where
  chunkId : ℕ
  vecRaw : Option ℚ
  bmRaw : Option ℚ
  fromVector : Bool
  fromBm25 : Bool
deriving DecidableEq, Repr

/-- Modelled from the spec (§3, §4.5 step 6): a fused candidate as it appears
in the `FusionResult` sequence, with normalized scores and the fusion score. -/
structure ScoredCandidate where
  chunkId : ℕ
  vecRaw : Option ℚ
  bmRaw : Option ℚ
  fromVector : Bool
  fromBm25 : Bool
  vecNorm : ℚ
  bmNorm : ℚ
  fusionScore : ℚ
deriving DecidableEq, Repr

/-- Modelled from the spec (§4.5 step 1): fold a BM25 top-K entry into the
candidate accumulator — update the existing candidate for that chunk id, or
append a new BM25-only candidate. -/
def addBm (cands : List Candidate) (id : ℕ) (s : ℚ) : List Candidate :=
  if cands.any (fun c => c.chunkId = id) then
    cands.map (fun c =>
      if c.chunkId = id then { c with bmRaw := some s, fromBm25 := true } else c)
  else
    cands ++ [⟨id, none, some s, false, true⟩]

/-- Modelled from the spec (§3, §4.5 step 1): the candidate set is the union of
the vector top-K list and the BM25 top-K list, in vector-then-BM25 discovery
order. -/
def buildCandidates (vec bm : List (ℕ × ℚ)) : List Candidate :=
  let vcands := vec.map (fun p => Candidate.mk p.1 (some p.2) none true false)
  bm.foldl (fun acc p => addBm acc p.1 p.2) vcands

/-- Minimum of a list of rationals, `none` on the empty list. -/
def listMinQ : List ℚ → Option ℚ
  | [] => none
  | x :: xs => some (xs.foldl min x)

/-- Maximum of a list of rationals, `none` on the empty list. -/
def listMaxQ : List ℚ → Option ℚ
  | [] => none
  | x :: xs => some (xs.foldl max x)

/-- Modelled from the spec (§4.5 steps 2–3): min-max normalization of one raw
score over the window of present raw scores of that type. An absent raw score
normalizes to `0`; the degenerate window (`max == min`, including the all-absent
case) also yields `0`. -/
def normScore (vals : List ℚ) (raw : Option ℚ) : ℚ :=
  match raw with
  | none => 0
  | some v =>
    match listMinQ vals, listMaxQ vals with
    | some lo, some hi => if hi = lo then 0 else (v - lo) / (hi - lo)
    | _, _ => 0

/-- Modelled from the spec (§4.5 step 4): the weighted fusion of the two
normalized scores. -/
def fusionCombine (alpha vn bn : ℚ) : ℚ :=
  alpha * vn + (1 - alpha) * bn

/-- The raw vector scores present in a candidate set: exactly those candidates
retrieved by the vector method contribute. -/
def vecVals (cands : List Candidate) : List ℚ :=
  cands.filterMap Candidate.vecRaw

/-- The raw BM25 scores present in a candidate set: exactly those candidates
retrieved by the BM25 method contribute. -/
def bmVals (cands : List Candidate) : List ℚ :=
  cands.filterMap Candidate.bmRaw

/-- Modelled from the spec (§4.5 steps 2–4): score one candidate given the two
normalization windows. -/
def scoreOne (alpha : ℚ) (vvals bvals : List ℚ) (c : Candidate) : ScoredCandidate :=
  let vn := normScore vvals c.vecRaw
  let bn := normScore bvals c.bmRaw
  ⟨c.chunkId, c.vecRaw, c.bmRaw, c.fromVector, c.fromBm25, vn, bn,
    fusionCombine alpha vn bn⟩

/-- Modelled from the spec (§4.5 steps 2–4): normalize and fuse every candidate,
each score type normalized independently over the candidate set. -/
def scoreCandidates (alpha : ℚ) (cands : List Candidate) : List ScoredCandidate :=
  cands.map (scoreOne alpha (vecVals cands) (bmVals cands))

/-- Tie-break rank of the provenance flags: a candidate retrieved by both
methods sorts before a single-source candidate. -/
def bonus (c : ScoredCandidate) : ℕ :=
  if c.fromVector && c.fromBm25 then 0 else 1

/-- Modelled from the spec (§4.5 step 5): sort key — fusion score descending,
then both-source before single-source, then chunk id ascending. -/
def rankKey (c : ScoredCandidate) : ℚ ×ₗ ℕ ×ₗ ℕ :=
  toLex (-c.fusionScore, toLex (bonus c, c.chunkId))

/-- The ranking order of the fuser: `a` may legitimately precede `b`. -/
def rankLE (a b : ScoredCandidate) : Prop :=
  rankKey a ≤ rankKey b

instance : DecidableRel rankLE :=
  fun a b => inferInstanceAs (Decidable (rankKey a ≤ rankKey b))

instance : IsTotal ScoredCandidate rankLE :=
  ⟨fun a b => le_total (rankKey a) (rankKey b)⟩

instance : IsTrans ScoredCandidate rankLE :=
  ⟨fun _ _ _ h1 h2 => le_trans h1 h2⟩

/-- Modelled from the spec (§3, §6): the retrieval output — the truncated fused
ranking plus the debug trace data (candidate counts and the per-candidate score
table). -/
structure RetrievalOutput where
  ranking : List ScoredCandidate
  countVector : ℕ
  countBm25 : ℕ
  countMerged : ℕ
  sources : List ScoredCandidate
deriving DecidableEq, Repr

/-- Modelled from the spec (§4.5): the candidate fuser — union, normalize,
fuse, sort, truncate to `topK`, and emit the debug trace alongside. -/
def hybridRetrieve (alpha : ℚ) (topK : ℕ) (vec bm : List (ℕ × ℚ)) : RetrievalOutput :=
  let cands := buildCandidates vec bm
  let scored := scoreCandidates alpha cands
  let sorted := List.insertionSort rankLE scored
  { ranking := sorted.take topK
    countVector := vec.length
    countBm25 := bm.length
    countMerged := cands.length
    sources := sorted }

/-- Modelled from the spec (§2, §6): the default fusion weight `FUSION_ALPHA`. -/
def FUSION_ALPHA : ℚ := 7 / 10

/-- Modelled from the spec (§5, §6): the read-only, already-built index state a
query runs against — the two search sides are abstract functions of the query
(their internals are in the missing backend module), plus the configured fusion
weight. -/
structure IndexState where
  vecSearch : String → List (ℕ × ℚ)
  bmSearch : String → List (ℕ × ℚ)
  alpha : ℚ

/-- Modelled from the spec (§5, §6): `retrieve(query, top_k)` as an explicit
state-passing operation — the pipeline computes the fused ranking and debug
trace from the index state and returns the state alongside, so that mutation
(or its absence) is observable. -/
def retrieveSt (s : IndexState) (query : String) (topK : ℕ) :
    RetrievalOutput × IndexState :=
  (hybridRetrieve s.alpha topK (s.vecSearch query) (s.bmSearch query), s)

/-- Modelled from the spec (§4.2): the denominator of the BM25 idf quotient,
`df + 0.5`. -/
def bm25IdfDen (df : ℕ) : ℚ := (df : ℚ) + 1 / 2

/-- Modelled from the spec (§4.2): the argument of the logarithm in
`idf(term) = ln(1 + (N - df + 0.5) / (df + 0.5))`. -/
def bm25IdfArg (N df : ℕ) : ℚ :=
  1 + ((N : ℚ) - (df : ℚ) + 1 / 2) / bm25IdfDen df

/-- Modelled from the spec (§4.2): the BM25 inverse document frequency,
`idf(term) = ln(1 + (N - df + 0.5) / (df + 0.5))`, over the reals. -/
noncomputable def bm25Idf (N df : ℕ) : ℝ :=
  Real.log (bm25IdfArg N df)

/-- From `src/unnamed/part_001` (ChatApp, hybrid-ranking debug table): the field
names the debug-display consumer reads off each ranked chunk
(`item.rank`, `item.score`, `item.from_vector`, `item.from_bm25`,
`item.vector_score_norm`, `item.bm25_score_norm`, `item.chunk_id`,
`item.url`). -/
def chatAppRankedChunkReads : List String :=
  ["rank", "score", "from_vector", "from_bm25", "vector_score_norm",
    "bm25_score_norm", "chunk_id", "url"]

/-- From `src/unnamed/part_001` (ChatApp, sources debug table): the field names
the consumer reads off each raw candidate (`source.extract_id` in the row key,
then `source.score`, `source.from_vector`, `source.from_bm25`,
`source.vector_score_raw`, `source.bm25_score_raw`, `source.url`). -/
def chatAppSourceReads : List String :=
  ["extract_id", "score", "from_vector", "from_bm25", "vector_score_raw",
    "bm25_score_raw", "url"]

/-- From `src/unnamed/part_001` (ChatApp, candidate-count banner): the keys read
off `retrieval.candidate_counts`. -/
def chatAppCandidateCountReads : List String :=
  ["vector", "bm25", "merged"]

/-- Modelled from the spec (§6, debug-trace contract): the per-ranked-chunk
fields the trace exposes; the producer side lives in the missing backend
module. -/
def debugTraceRankedChunkFields : List String :=
  ["rank", "score", "from_vector", "from_bm25", "vector_score_norm",
    "bm25_score_norm", "chunk_id", "url"]

/-- Modelled from the spec (§6, debug-trace contract): the per-raw-candidate
fields the trace exposes. -/
def debugTraceSourceFields : List String :=
  ["extract_id", "score", "from_vector", "from_bm25", "vector_score_raw",
    "bm25_score_raw", "url"]

/-- Modelled from the spec (§6, debug-trace contract): the keys of the
aggregate `candidate_counts` object. -/
def debugTraceCandidateCountFields : List String :=
  ["vector", "bm25", "merged"]

/-- The result of the browser's URL constructor, abstracted to the one field the
app uses. `new URL(s)` either yields parts or throws; the throw is embedded as
`Option.none` in the parser argument. -/
structure UrlParts where
  hostname : String
deriving DecidableEq, Repr

/-- From `src/unnamed/part_001`: `domainFromUrl` wraps `new URL(url).hostname`
in a try/catch, returning the hostname on success and the empty string when the
constructor throws. The browser parser is passed in as a function. -/
def domainFromUrl (parse : String → Option UrlParts) (url : String) : String :=
  match parse url with
  | some u => u.hostname
  | none => ""

/-- From `src/unnamed/part_001` (ChatApp message rendering): a message source as
the favicon renderer sees it — the `url` field may be absent. -/
structure MessageSource where
  url : Option String
deriving DecidableEq, Repr

/-- From `src/unnamed/part_001` (ChatApp, source favicon rendering): compute
`domainFromUrl(source.url || "")`; if the domain is empty the source is skipped
(`return null`), otherwise a favicon link for that domain is emitted. -/
def renderSourceIcon (parse : String → Option UrlParts) (source : MessageSource) :
    Option String :=
  let domain := domainFromUrl parse (source.url.getD "")
  if domain = "" then none
  else some ("https://www.google.com/s2/favicons?domain=" ++ domain ++ "&sz=64")

/-- A JavaScript value as it can appear in a debug-payload score field: a finite
number, the number `NaN`, a boolean, `null`, or `undefined` (which is also what
reading an absent field yields). -/
inductive JsVal where
  | num : ℚ → JsVal
  | nan : JsVal
  | bool : Bool → JsVal
  | null : JsVal
  | undefined : JsVal
deriving DecidableEq, Repr

/-- JavaScript truthiness on the embedded values: `0`, `NaN`, `false`, `null`
and `undefined` are falsy. -/
def jsFalsy : JsVal → Bool
  | JsVal.num q => q = 0
  | JsVal.nan => true
  | JsVal.bool b => !b
  | JsVal.null => true
  | JsVal.undefined => true

/-- The JavaScript `||` operator: the left operand unless it is falsy. -/
def jsOr (x d : JsVal) : JsVal :=
  if jsFalsy x then d else x

/-- The JavaScript `Number(...)` coercion on the embedded values; `none` stands
for `NaN` (from `NaN` itself or from `undefined`). -/
def jsNumber : JsVal → Option ℚ
  | JsVal.num q => some q
  | JsVal.nan => none
  | JsVal.bool b => some (if b then 1 else 0)
  | JsVal.null => some 0
  | JsVal.undefined => none

/-- Left-pad the decimal digits of `n` with zeros to width 4. -/
def zeroPad4 (n : ℕ) : String :=
  let s := toString n
  String.mk (List.replicate (4 - s.length) '0') ++ s

/-- `Number.prototype.toFixed(4)` on an exact rational: round to four decimal
places (half away from zero) and print with exactly four fraction digits. -/
def toFixed4 (q : ℚ) : String :=
  let sgn := if q < 0 then "-" else ""
  let m := (⌊|q| * 10000 + 1 / 2⌋).toNat
  sgn ++ toString (m / 10000) ++ "." ++ zeroPad4 (m % 10000)

/-- From `src/unnamed/part_001` (ChatApp debug tables): every numeric score cell
is rendered as `Number(x || 0).toFixed(4)`; `toFixed` prints `"NaN"` when the
number is `NaN`. -/
def renderScoreCell (x : JsVal) : String :=
  match jsNumber (jsOr x (JsVal.num 0)) with
  | some q => toFixed4 q
  | none => "NaN"

/-- The relation the spec's §4.5 step 5 requires between any earlier and any
later entry of the fused ranking: strictly larger fusion score, or equal fusion
scores with the both-source candidate first, or equal fusion scores and equal
provenance with chunk ids ascending. -/
def claimTieOrder (a b : ScoredCandidate) : Prop :=
  b.fusionScore < a.fusionScore ∨
    (a.fusionScore = b.fusionScore ∧
      (((a.fromVector && a.fromBm25) = true ∧ (b.fromVector && b.fromBm25) = false) ∨
        ((a.fromVector && a.fromBm25) = (b.fromVector && b.fromBm25) ∧
          a.chunkId ≤ b.chunkId)))

theorem toFixed4_zero : toFixed4 0 = "0.0000" := by
  have h0 : ⌊|(0 : ℚ)| * 10000 + 1 / 2⌋ = 0 := by
    rw [Int.floor_eq_zero_iff]
    constructor <;> norm_num
  have hlt : ¬ ((0 : ℚ) < 0) := lt_irrefl 0
  simp only [toFixed4, h0, if_neg hlt]
  rfl

theorem mem_ranking_mem_scored (alpha : ℚ) (topK : ℕ) (vec bm : List (ℕ × ℚ))
    {c : ScoredCandidate} (h : c ∈ (hybridRetrieve alpha topK vec bm).ranking) :
    c ∈ scoreCandidates alpha (buildCandidates vec bm) := by
  simp only [hybridRetrieve] at h
  have h1 := (List.take_sublist topK _).subset h
  exact (List.perm_insertionSort rankLE _).subset h1

theorem mem_map_chunkId_addBm {x : ℕ} (cands : List Candidate) (id : ℕ) (s : ℚ)
    (h : x ∈ (addBm cands id s).map Candidate.chunkId) :
    x ∈ cands.map Candidate.chunkId ∨ x = id := by
  unfold addBm at h
  by_cases hc : cands.any (fun c => c.chunkId = id)
  · rw [if_pos hc] at h
    rw [List.map_map] at h
    rcases List.mem_map.mp h with ⟨c0, hc0, hx⟩
    by_cases he : c0.chunkId = id
    · right
      simp only [Function.comp, if_pos he] at hx
      omega
    · left
      simp only [Function.comp, if_neg he] at hx
      exact hx ▸ List.mem_map_of_mem Candidate.chunkId hc0
  · rw [if_neg hc, List.map_append] at h
    rcases List.mem_append.mp h with h1 | h1
    · exact Or.inl h1
    · right
      simpa using h1

theorem mem_foldl_addBm :
    ∀ (bm : List (ℕ × ℚ)) (acc : List Candidate) (x : ℕ),
      x ∈ (bm.foldl (fun a p => addBm a p.1 p.2) acc).map Candidate.chunkId →
      x ∈ acc.map Candidate.chunkId ∨ x ∈ bm.map Prod.fst := by
  intro bm
  induction bm with
  | nil =>
    intro acc x h
    exact Or.inl h
  | cons p bm ih =>
    intro acc x h
    rcases ih (addBm acc p.1 p.2) x h with h1 | h1
    · rcases mem_map_chunkId_addBm acc p.1 p.2 h1 with h2 | h2
      · exact Or.inl h2
      · right
        rw [h2]
        exact List.mem_cons_self _ _
    · right
      exact List.mem_cons_of_mem _ h1

theorem bmVals_erase_of_none (cands : List Candidate) (c : Candidate)
    (h : c.bmRaw = none) : bmVals (cands.erase c) = bmVals cands := by
  induction cands with
  | nil => rfl
  | cons a l ih =>
    simp only [List.erase_cons, beq_iff_eq]
    by_cases ha : a = c
    · rw [if_pos ha]
      subst ha
      simp [bmVals, List.filterMap_cons, h]
    · rw [if_neg ha]
      simp only [bmVals, List.filterMap_cons]
      rw [← bmVals, ← bmVals, ih]

theorem vecVals_erase_of_none (cands : List Candidate) (c : Candidate)
    (h : c.vecRaw = none) : vecVals (cands.erase c) = vecVals cands := by
  induction cands with
  | nil => rfl
  | cons a l ih =>
    simp only [List.erase_cons, beq_iff_eq]
    by_cases ha : a = c
    · rw [if_pos ha]
      subst ha
      simp [vecVals, List.filterMap_cons, h]
    · rw [if_neg ha]
      simp only [vecVals, List.filterMap_cons]
      rw [← vecVals, ← vecVals, ih]

theorem normScore_degenerate (vals : List ℚ) (raw : Option ℚ)
    (h : listMinQ vals = listMaxQ vals) : normScore vals raw = 0 := by
  cases raw with
  | none => rfl
  | some v =>
    simp only [normScore, ← h]
    cases hm : listMinQ vals with
    | none => rfl
    | some lo => simp

theorem rankLE_imp_claimTieOrder (a b : ScoredCandidate) (h : rankLE a b) :
    claimTieOrder a b := by
  unfold rankLE rankKey at h
  rw [Prod.Lex.le_iff] at h
  rcases h with h | ⟨h1, h2⟩
  · left
    exact neg_lt_neg_iff.mp h
  · have hf : a.fusionScore = b.fusionScore := neg_inj.mp h1
    rw [Prod.Lex.le_iff] at h2
    right
    refine ⟨hf, ?_⟩
    rcases h2 with h2 | ⟨h2, h3⟩
    · left
      unfold bonus at h2
      by_cases ha : a.fromVector && a.fromBm25 <;>
        by_cases hb : b.fromVector && b.fromBm25 <;>
          simp [ha, hb] at h2 ⊢
    · right
      refine ⟨?_, h3⟩
      unfold bonus at h2
      by_cases ha : a.fromVector && a.fromBm25 <;>
        by_cases hb : b.fromVector && b.fromBm25 <;>
          simp [ha, hb] at h2 ⊢

/-- C1: every candidate in the fused ranking has fusion score exactly
`alpha * vector_norm + (1 - alpha) * bm25_norm` for the configured `alpha`; in
particular a candidate with `vector_norm = 0.80` and `bm25_norm = 0.50` under
`alpha = 0.70` fuses to exactly `0.71`. -/
theorem c1_fusion_score_exact (alpha : ℚ) (topK : ℕ) (vec bm : List (ℕ × ℚ))
    (c : ScoredCandidate) (h : c ∈ (hybridRetrieve alpha topK vec bm).ranking) :
    c.fusionScore = fusionCombine alpha c.vecNorm c.bmNorm ∧
      fusionCombine (7/10) (8/10) (5/10) = 71/100 := by
  constructor
  · rcases List.mem_map.mp (mem_ranking_mem_scored alpha topK vec bm h) with ⟨o, ho, rfl⟩
    rfl
  · norm_num [fusionCombine]

theorem c1_fusion_score_exact_witness :
    (⟨1, some 1, none, true, false, 0, 0, 0⟩ : ScoredCandidate).fusionScore =
        fusionCombine (7/10)
          (⟨1, some 1, none, true, false, 0, 0, 0⟩ : ScoredCandidate).vecNorm
          (⟨1, some 1, none, true, false, 0, 0, 0⟩ : ScoredCandidate).bmNorm ∧
      fusionCombine (7/10) (8/10) (5/10) = 71/100 :=
  c1_fusion_score_exact (7/10) 5 [(1, 1)] [] ⟨1, some 1, none, true, false, 0, 0, 0⟩
    (by norm_num [hybridRetrieve, scoreCandidates, buildCandidates, addBm, scoreOne,
      vecVals, bmVals, normScore, listMinQ, listMaxQ, fusionCombine,
      List.filterMap_cons, List.insertionSort, List.orderedInsert, rankLE, rankKey,
      bonus, Prod.Lex.le_iff, min_def, max_def])

/-- C2: whenever all raw scores present for one score type coincide
(`max == min`, including the all-absent case), min-max normalization assigns
every candidate normalized value exactly `0` for that type, with no
division-by-zero fault. -/
theorem c2_degenerate_min_max_norm :
    (∀ (vals : List ℚ) (raw : Option ℚ), listMinQ vals = listMaxQ vals →
        normScore vals raw = 0) ∧
      ∀ (alpha : ℚ) (topK : ℕ) (vec bm : List (ℕ × ℚ)) (c : ScoredCandidate),
        c ∈ (hybridRetrieve alpha topK vec bm).ranking →
          (listMinQ (vecVals (buildCandidates vec bm)) =
              listMaxQ (vecVals (buildCandidates vec bm)) → c.vecNorm = 0) ∧
          (listMinQ (bmVals (buildCandidates vec bm)) =
              listMaxQ (bmVals (buildCandidates vec bm)) → c.bmNorm = 0) := by
  refine ⟨normScore_degenerate, ?_⟩
  intro alpha topK vec bm c h
  rcases List.mem_map.mp (mem_ranking_mem_scored alpha topK vec bm h) with ⟨o, ho, rfl⟩
  exact ⟨fun hd => normScore_degenerate _ _ hd, fun hd => normScore_degenerate _ _ hd⟩

theorem c2_degenerate_min_max_norm_witness : normScore [2] (some 2) = 0 :=
  c2_degenerate_min_max_norm.1 [2] (some 2) rfl

/-- C3: every chunk in the fused ranking appeared in the vector top-K candidate
list, the BM25 top-K candidate list, or both — no other chunk enters the fused
ranking. -/
theorem c3_candidate_provenance (alpha : ℚ) (topK : ℕ) (vec bm : List (ℕ × ℚ))
    (c : ScoredCandidate) (h : c ∈ (hybridRetrieve alpha topK vec bm).ranking) :
    c.chunkId ∈ vec.map Prod.fst ∨ c.chunkId ∈ bm.map Prod.fst := by
  rcases List.mem_map.mp (mem_ranking_mem_scored alpha topK vec bm h) with ⟨o, ho, rfl⟩
  have hm : o.chunkId ∈ (buildCandidates vec bm).map Candidate.chunkId :=
    List.mem_map_of_mem Candidate.chunkId ho
  unfold buildCandidates at hm
  rcases mem_foldl_addBm bm _ o.chunkId hm with h1 | h1
  · left
    rw [List.map_map] at h1
    simpa using h1
  · exact Or.inr h1

theorem c3_candidate_provenance_witness :
    (⟨1, some 1, none, true, false, 0, 0, 0⟩ : ScoredCandidate).chunkId ∈
        [((1 : ℕ), (1 : ℚ))].map Prod.fst ∨
      (⟨1, some 1, none, true, false, 0, 0, 0⟩ : ScoredCandidate).chunkId ∈
        ([] : List (ℕ × ℚ)).map Prod.fst :=
  c3_candidate_provenance (7/10) 3 [(1, 1)] [] ⟨1, some 1, none, true, false, 0, 0, 0⟩
    (by norm_num [hybridRetrieve, scoreCandidates, buildCandidates, addBm, scoreOne,
      vecVals, bmVals, normScore, listMinQ, listMaxQ, fusionCombine,
      List.filterMap_cons, List.insertionSort, List.orderedInsert, rankLE, rankKey,
      bonus, Prod.Lex.le_iff, min_def, max_def])

/-- C4: the fused candidate sequence is sorted by fusion score descending, equal
scores put a both-source candidate above a single-source one, remaining ties go
by chunk id ascending, and the sequence is truncated to the caller-supplied
`top_k`. -/
theorem c4_ranking_sort_order (alpha : ℚ) (topK : ℕ) (vec bm : List (ℕ × ℚ)) :
    List.Pairwise claimTieOrder (hybridRetrieve alpha topK vec bm).ranking ∧
      (hybridRetrieve alpha topK vec bm).ranking.length ≤ topK := by
  constructor
  · have hs : List.Sorted rankLE
        (List.insertionSort rankLE (scoreCandidates alpha (buildCandidates vec bm))) :=
      List.sorted_insertionSort rankLE _
    have ht : List.Pairwise rankLE (hybridRetrieve alpha topK vec bm).ranking :=
      List.Pairwise.sublist (List.take_sublist _ _) hs
    exact ht.imp (fun hab => rankLE_imp_claimTieOrder _ _ hab)
  · simp only [hybridRetrieve]
    rw [List.length_take]
    exact min_le_left _ _

/-- C5: a candidate retrieved by only one method is kept, its missing score type
normalizes to exactly `0`, and an absent raw score never enters the other
type's min/max window; in the two-chunk scenario where BM25 returns only chunk
1 and chunk 2 is in the vector top-K, the fused ranking contains both chunks
and chunk 2 has `bm25_score_norm = 0`. -/
theorem c5_missing_score_policy :
    (∀ (alpha : ℚ) (topK : ℕ) (vec bm : List (ℕ × ℚ)) (c : ScoredCandidate),
        c ∈ (hybridRetrieve alpha topK vec bm).ranking →
          (c.bmRaw = none → c.bmNorm = 0) ∧ (c.vecRaw = none → c.vecNorm = 0)) ∧
      (∀ (cands : List Candidate) (c : Candidate), c.bmRaw = none →
          bmVals (cands.erase c) = bmVals cands) ∧
      (∀ (cands : List Candidate) (c : Candidate), c.vecRaw = none →
          vecVals (cands.erase c) = vecVals cands) ∧
      (hybridRetrieve FUSION_ALPHA 2 [(1, 1), (2, 0)] [(1, 2)]).ranking =
        [⟨1, some 1, some 2, true, true, 1, 0, 7/10⟩,
          ⟨2, some 0, none, true, false, 0, 0, 0⟩] := by
  refine ⟨?_, bmVals_erase_of_none, vecVals_erase_of_none, ?_⟩
  · intro alpha topK vec bm c h
    rcases List.mem_map.mp (mem_ranking_mem_scored alpha topK vec bm h) with ⟨o, ho, rfl⟩
    constructor
    · intro hb
      have hb2 : o.bmRaw = none := hb
      show normScore (bmVals (buildCandidates vec bm)) o.bmRaw = 0
      rw [hb2]
      rfl
    · intro hv
      have hv2 : o.vecRaw = none := hv
      show normScore (vecVals (buildCandidates vec bm)) o.vecRaw = 0
      rw [hv2]
      rfl
  · norm_num [hybridRetrieve, FUSION_ALPHA, scoreCandidates, buildCandidates, addBm,
      scoreOne, vecVals, bmVals, normScore, listMinQ, listMaxQ, fusionCombine,
      List.filterMap_cons, List.insertionSort, List.orderedInsert, rankLE, rankKey,
      bonus, Prod.Lex.le_iff, min_def, max_def]

theorem c5_missing_score_policy_witness :
    (⟨2, some 0, none, true, false, 0, 0, 0⟩ : ScoredCandidate).bmNorm = 0 :=
  (c5_missing_score_policy.1 FUSION_ALPHA 2 [(1, 1), (2, 0)] [(1, 2)]
      ⟨2, some 0, none, true, false, 0, 0, 0⟩
      (by norm_num [hybridRetrieve, FUSION_ALPHA, scoreCandidates, buildCandidates,
        addBm, scoreOne, vecVals, bmVals, normScore, listMinQ, listMaxQ,
        fusionCombine, List.filterMap_cons, List.insertionSort, List.orderedInsert,
        rankLE, rankKey, bonus, Prod.Lex.le_iff, min_def, max_def])).1 rfl

/-- C6: retrieval is pure and deterministic — the call returns the index state
unchanged, and a second call on the state returned by the first yields exactly
the same ranking and debug trace. -/
theorem c6_retrieve_pure_deterministic (s : IndexState) (q : String) (topK : ℕ) :
    (retrieveSt s q topK).2 = s ∧
      (retrieveSt ((retrieveSt s q topK).2) q topK).1 = (retrieveSt s q topK).1 :=
  ⟨rfl, rfl⟩

/-- C7: the BM25 idf formula `ln(1 + (N - df + 0.5) / (df + 0.5))` is
well-defined for every term: the denominator `df + 0.5` is strictly positive
(so no division by zero, including `df = 0`), the logarithm argument matches
the formula, and for `df ≤ N` the idf is non-negative. -/
theorem c7_bm25_idf_well_defined (N df : ℕ) :
    bm25IdfDen df ≠ 0 ∧ 0 < bm25IdfDen df ∧
      bm25IdfArg N df = 1 + ((N : ℚ) - (df : ℚ) + 1 / 2) / ((df : ℚ) + 1 / 2) ∧
      (df ≤ N → 0 ≤ bm25Idf N df) := by
  have hpos : 0 < bm25IdfDen df := by
    unfold bm25IdfDen
    positivity
  refine ⟨ne_of_gt hpos, hpos, rfl, ?_⟩
  intro hdf
  apply Real.log_nonneg
  have h1 : (1 : ℚ) ≤ bm25IdfArg N df := by
    unfold bm25IdfArg
    have hcast : ((df : ℚ)) ≤ (N : ℚ) := by exact_mod_cast hdf
    have hnum : (0 : ℚ) ≤ (N : ℚ) - (df : ℚ) + 1 / 2 := by linarith
    have hdiv := div_nonneg hnum (le_of_lt hpos)
    linarith
  exact_mod_cast h1

theorem c7_bm25_idf_well_defined_witness :
    bm25IdfDen 0 ≠ 0 ∧ 0 ≤ bm25Idf 3 0 :=
  ⟨(c7_bm25_idf_well_defined 3 0).1, (c7_bm25_idf_well_defined 3 0).2.2.2 (by decide)⟩

/-- C8: the debug-trace field names the spec's external contract exposes — per
ranked chunk, per raw candidate, and for the aggregate candidate counts — are
exactly the names the ChatApp debug-display consumer reads. -/
theorem c8_debug_trace_field_names :
    chatAppRankedChunkReads = debugTraceRankedChunkFields ∧
      chatAppSourceReads = debugTraceSourceFields ∧
      chatAppCandidateCountReads = debugTraceCandidateCountFields :=
  ⟨rfl, rfl, rfl⟩

/-- C9: `domainFromUrl` is total — it returns the hostname when the URL parses
and the empty string when the parser throws — and a message source whose url
does not parse is skipped entirely by the favicon renderer. -/
theorem c9_domainFromUrl_total (parse : String → Option UrlParts) (s : String)
    (u : UrlParts) (source : MessageSource) :
    (parse s = some u → domainFromUrl parse s = u.hostname) ∧
      (parse s = none → domainFromUrl parse s = "") ∧
      (parse (source.url.getD "") = none → renderSourceIcon parse source = none) := by
  refine ⟨?_, ?_, ?_⟩ <;> intro h <;> simp [domainFromUrl, renderSourceIcon, h]

theorem c9_domainFromUrl_total_witness :
    renderSourceIcon (fun _ => none) ⟨none⟩ = none :=
  (c9_domainFromUrl_total (fun _ => none) "" ⟨""⟩ ⟨none⟩).2.2 rfl

/-- C10: every debug score cell is rendered as `Number(x || 0).toFixed(4)`, so
an absent, `null`, `undefined`, `false`, `0` or `NaN` field displays exactly
`"0.0000"`, and the rendered value is always `toFixed4` of an actual number —
never the string `"NaN"`. -/
theorem c10_debug_score_rendering :
    renderScoreCell JsVal.undefined = "0.0000" ∧
      renderScoreCell JsVal.null = "0.0000" ∧
      renderScoreCell (JsVal.bool false) = "0.0000" ∧
      renderScoreCell (JsVal.num 0) = "0.0000" ∧
      renderScoreCell JsVal.nan = "0.0000" ∧
      ∀ x : JsVal, ∃ q : ℚ, jsNumber (jsOr x (JsVal.num 0)) = some q ∧
        renderScoreCell x = toFixed4 q := by
  have hz : ∀ x : JsVal, jsFalsy x = true → renderScoreCell x = "0.0000" := by
    intro x hx
    simp [renderScoreCell, jsOr, hx, jsNumber, toFixed4_zero]
  refine ⟨hz _ rfl, hz _ rfl, hz _ rfl, hz _ (by simp [jsFalsy]), hz _ rfl, ?_⟩
  intro x
  cases x with
  | num q =>
    by_cases hq : q = 0
    · subst hq
      exact ⟨0, by simp [jsOr, jsFalsy, jsNumber],
        by simp [renderScoreCell, jsOr, jsFalsy, jsNumber]⟩
    · exact ⟨q, by simp [jsOr, jsFalsy, hq, jsNumber],
        by simp [renderScoreCell, jsOr, jsFalsy, hq, jsNumber]⟩
  | nan =>
    exact ⟨0, by simp [jsOr, jsFalsy, jsNumber],
      by simp [renderScoreCell, jsOr, jsFalsy, jsNumber]⟩
  | bool b =>
    cases b with
    | false =>
      exact ⟨0, by simp [jsOr, jsFalsy, jsNumber],
        by simp [renderScoreCell, jsOr, jsFalsy, jsNumber]⟩
    | true =>
      exact ⟨1, by simp [jsOr, jsFalsy, jsNumber],
        by simp [renderScoreCell, jsOr, jsFalsy, jsNumber]⟩
  | null =>
    exact ⟨0, by simp [jsOr, jsFalsy, jsNumber],
      by simp [renderScoreCell, jsOr, jsFalsy, jsNumber]⟩
  | undefined =>
    exact ⟨0, by simp [jsOr, jsFalsy, jsNumber],
      by simp [renderScoreCell, jsOr, jsFalsy, jsNumber]⟩
